import Mathlib

/-!
Shallow embedding of `src/main.rs` of the rosdistro-sync-bot repository.

The program loads a YAML sequence of `SyncStatus` records, folds it into a
`HashMap<String, bool>` (distro name → in-sync-hold flag), lists the open
issues of a repository and reconciles the `"in_sync_hold"` label on each
issue against the map.

Modelling choices:
* The Rust `HashMap<String, bool>` is modelled as an association list
  (`DistroToSyncStatus`) whose `hmInsert` replaces the value of an existing
  key and otherwise appends; `hmGet` looks the key up.  These are the only
  observable operations the program uses, besides `keys()`, whose iteration
  order is unspecified in Rust; theorems therefore take the key enumeration
  `distros` as an explicit list parameter, constrained only up to membership
  or permutation with `hmKeys`.
* The per-issue body of `run` is `processIssue`: it returns
  `Except String (Option (List String))` — `.error` models a panic
  (`expect` / `unreachable!`), `.ok none` the `continue` branch (no update
  call), and `.ok (some labels)` an update call sending `labels`.
* `runIssues` models the `for issue in issues` loop: it threads the abort
  behaviour of panics and counts the label-update network calls issued.
* Network, YAML parsing and environment loading are out of scope (the spec
  treats them as black boxes); `url_to_file` models the `format!` string of
  `main`.
-/

namespace RosdistroSyncBot

/-- `const SYNC_HOLD_LABEL: &str = "in_sync_hold";` -/
def SYNC_HOLD_LABEL : String := "in_sync_hold"

/-- `struct SyncStatus { distro: String, in_sync_hold: bool }` -/
structure SyncStatus where
  distro : String
  in_sync_hold : Bool
deriving Repr, DecidableEq

/-- `type DistroToSyncStatus = HashMap<String, bool>;` modelled as an
association list. -/
abbrev DistroToSyncStatus := List (String × Bool)

/-- `HashMap::insert`: overwrite the value of an existing key, otherwise add
the binding. -/
def hmInsert : DistroToSyncStatus → String → Bool → DistroToSyncStatus
  | [], k, v => [(k, v)]
  | p :: m, k, v => if p.1 == k then (k, v) :: m else p :: hmInsert m k v

/-- `HashMap::get`. -/
def hmGet (m : DistroToSyncStatus) (k : String) : Option Bool :=
  (m.find? (fun p => p.1 == k)).map Prod.snd

/-- `HashMap::keys`, up to the unspecified iteration order. -/
def hmKeys (m : DistroToSyncStatus) : List String :=
  m.map Prod.fst

/-- `fn sync_statuses_to_hashmap(sync_statuses: &Vec<SyncStatus>) -> DistroToSyncStatus`. -/
def sync_statuses_to_hashmap (sync_statuses : List SyncStatus) : DistroToSyncStatus :=
  sync_statuses.foldl (fun acc s => hmInsert acc s.distro s.in_sync_hold) []

/-- The body of the `for issue in issues` loop of `run`, for one issue with
label list `labels`.  `distros` is `distro_to_sync_status.keys()` in the
unspecified iteration order.  `.error` models a panic, `.ok none` the
`continue` (no update call), `.ok (some ls)` an update call sending `ls`. -/
def processIssue (distros : List String) (m : DistroToSyncStatus)
    (labels : List String) : Except String (Option (List String)) :=
  match distros.find? (fun d => labels.contains d) with
  | none => .error "distro not found in labels"
  | some distro =>
    match hmGet m distro with
    | none => .error "distro not found in distro_map"
    | some is_in_sync =>
      let is_labeled_as_in_sync_hold := labels.any (fun label => label == SYNC_HOLD_LABEL)
      if is_in_sync == is_labeled_as_in_sync_hold then
        .ok none
      else if is_in_sync && !is_labeled_as_in_sync_hold then
        .ok (some (labels ++ [SYNC_HOLD_LABEL]))
      else if !is_in_sync && is_labeled_as_in_sync_hold then
        match labels.findIdx? (fun label => label == SYNC_HOLD_LABEL) with
        | none => .error "SYNC_HOLD_LABEL not found in labels"
        | some i => .ok (some (labels.eraseIdx i))
      else
        .error "This should never happen"

/-- The issue loop of `run`: processes the label list of each issue in order,
returning the final label lists together with the number of label-update
calls issued; a panic anywhere aborts the whole run. -/
def runIssues (distros : List String) (m : DistroToSyncStatus) :
    List (List String) → Except String (List (List String) × Nat)
  | [] => .ok ([], 0)
  | labels :: rest =>
    match processIssue distros m labels with
    | .error e => .error e
    | .ok none =>
      match runIssues distros m rest with
      | .error e => .error e
      | .ok (ls, n) => .ok (labels :: ls, n)
    | .ok (some labels') =>
      match runIssues distros m rest with
      | .error e => .error e
      | .ok (ls, n) => .ok (labels' :: ls, n + 1)

/-- The `format!` URL of `main`:
`https://raw.githubusercontent.com/{repo_org}/{repo_name}/{repo_branch_name}/{repo_path_to_sync_status}`. -/
def url_to_file (repo_org repo_name repo_branch_name repo_path_to_sync_status : String) :
    String :=
  "https://raw.githubusercontent.com/" ++ repo_org ++ "/" ++ repo_name ++ "/" ++
    repo_branch_name ++ "/" ++ repo_path_to_sync_status

/-- The spec's description of the URL (§6): the host followed by the exact
slash-joined segments `<org>/<repo>/<branch>/<path>`. -/
def spec_url (org repo branch path : String) : String :=
  "https://raw.githubusercontent.com/" ++ String.intercalate "/" [org, repo, branch, path]

lemma findIdx?_cons_zero (p : String → Bool) (x : String) (xs : List String) :
    (x :: xs).findIdx? p = if p x then some 0 else (xs.findIdx? p).map (· + 1) := by
  rw [List.findIdx?_cons, List.findIdx?_succ]

lemma findIdx?_isSome_of_any (p : String → Bool) (l : List String) (h : l.any p = true) :
    ∃ i, l.findIdx? p = some i := by
  have := @List.findIdx?_isSome String l p
  rw [h] at this
  exact Option.isSome_iff_exists.mp this

lemma filter_eraseIdx_findIdx? (a : String) :
    ∀ (l : List String) (i : Nat), l.findIdx? (fun x => x == a) = some i →
      (l.eraseIdx i).filter (fun x => !(x == a)) = l.filter (fun x => !(x == a))
  | [], i, h => by simp [List.findIdx?] at h
  | x :: xs, i, h => by
    rw [findIdx?_cons_zero] at h
    by_cases hx : (x == a) = true
    · rw [if_pos hx] at h
      cases h
      simp [List.eraseIdx_cons_zero, List.filter_cons, hx]
    · rw [if_neg hx] at h
      rw [Option.map_eq_some'] at h
      obtain ⟨j, hj, rfl⟩ := h
      have hx' : (x == a) = false := by simpa using hx
      rw [List.eraseIdx_cons_succ]
      simp [List.filter_cons, hx', filter_eraseIdx_findIdx? a xs j hj]

lemma not_mem_eraseIdx_of_count_le_one (a : String) :
    ∀ (l : List String) (i : Nat), l.findIdx? (fun x => x == a) = some i →
      l.count a ≤ 1 → a ∉ l.eraseIdx i
  | [], i, h, _ => by simp [List.findIdx?] at h
  | x :: xs, i, h, hc => by
    rw [findIdx?_cons_zero] at h
    by_cases hx : (x == a) = true
    · rw [if_pos hx] at h
      cases h
      rw [List.eraseIdx_cons_zero]
      rw [List.count_cons, if_pos hx] at hc
      exact List.not_mem_of_count_eq_zero (by omega)
    · rw [if_neg hx] at h
      rw [Option.map_eq_some'] at h
      obtain ⟨j, hj, rfl⟩ := h
      have hx' : ¬ x = a := by simpa using hx
      rw [List.eraseIdx_cons_succ]
      rw [List.count_cons, if_neg hx] at hc
      intro hmem
      rcases List.mem_cons.mp hmem with h1 | h1
      · exact hx' h1.symm
      · exact not_mem_eraseIdx_of_count_le_one a xs j hj (by omega) h1


lemma hmGet_cons (p : String × Bool) (m : DistroToSyncStatus) (q : String) :
    hmGet (p :: m) q = if (p.1 == q) = true then some p.2 else hmGet m q := by
  by_cases h : (p.1 == q) = true
  · simp [hmGet, List.find?_cons, h]
  · have h' : (p.1 == q) = false := by simpa using h
    simp [hmGet, List.find?_cons, h']

lemma hmInsert_cons (p : String × Bool) (m : DistroToSyncStatus) (k : String) (v : Bool) :
    hmInsert (p :: m) k v = if (p.1 == k) = true then (k, v) :: m else p :: hmInsert m k v :=
  rfl

lemma hmGet_hmInsert (m : DistroToSyncStatus) (k : String) (v : Bool) (q : String) :
    hmGet (hmInsert m k v) q = if q = k then some v else hmGet m q := by
  induction m with
  | nil =>
    by_cases h : q = k
    · simp [hmInsert, hmGet_cons, hmGet, h]
    · have hkq : (k == q) = false := by simpa using Ne.symm h
      simp [hmInsert, hmGet_cons, hmGet, hkq, h]
  | cons p m ih =>
    by_cases hp : (p.1 == k) = true
    · have hp' : p.1 = k := by simpa using hp
      rw [hmInsert_cons, if_pos hp]
      by_cases h : q = k
      · subst h
        simp [hmGet_cons]
      · have hkq : (k == q) = false := by simpa using Ne.symm h
        have hpq : (p.1 == q) = false := by rw [hp']; exact hkq
        rw [hmGet_cons, hmGet_cons, hkq, hpq]
        simp [h]
    · rw [hmInsert_cons, if_neg hp]
      by_cases hq : (p.1 == q) = true
      · have hq' : p.1 = q := by simpa using hq
        have hp' : ¬ p.1 = k := by simpa using hp
        have : ¬ q = k := fun hh => hp' (hq'.trans hh)
        rw [hmGet_cons, hmGet_cons, hq, if_neg this]
        simp
      · have hq' : (p.1 == q) = false := by simpa using hq
        rw [hmGet_cons, hmGet_cons, hq', ih]
        simp

lemma exists_hmGet_of_mem_hmKeys (m : DistroToSyncStatus) (k : String)
    (h : k ∈ hmKeys m) : ∃ b, hmGet m k = some b := by
  induction m with
  | nil => simp [hmKeys] at h
  | cons p m ih =>
    by_cases hp : (p.1 == k) = true
    · exact ⟨p.2, by rw [hmGet_cons, if_pos hp]⟩
    · have hp' : ¬ p.1 = k := by simpa using hp
      rcases List.mem_cons.mp h with h1 | h1
      · exact absurd h1.symm hp'
      · obtain ⟨b, hb⟩ := ih h1
        exact ⟨b, by rw [hmGet_cons, if_neg hp]; exact hb⟩

lemma mem_hmKeys_of_hmGet (m : DistroToSyncStatus) (k : String) (b : Bool)
    (h : hmGet m k = some b) : k ∈ hmKeys m := by
  induction m with
  | nil => simp [hmGet] at h
  | cons p m ih =>
    by_cases hp : (p.1 == k) = true
    · have hp' : p.1 = k := by simpa using hp
      simp [hmKeys, hp']
    · rw [hmGet_cons, if_neg hp] at h
      exact List.mem_cons.mpr (Or.inr (ih h))


lemma hmGet_foldl_insert (ss : List SyncStatus) :
    ∀ (acc : DistroToSyncStatus) (k : String),
      hmGet (ss.foldl (fun a s => hmInsert a s.distro s.in_sync_hold) acc) k =
        match ss.reverse.find? (fun s => s.distro == k) with
        | some s => some s.in_sync_hold
        | none => hmGet acc k := by
  induction ss with
  | nil => intro acc k; rfl
  | cons s ss ih =>
    intro acc k
    rw [List.foldl_cons, ih, List.reverse_cons, List.find?_append]
    cases hfind : ss.reverse.find? (fun s => s.distro == k) with
    | some s' => rfl
    | none =>
      by_cases hk : (s.distro == k) = true
      · have hk' : s.distro = k := by simpa using hk
        simp [List.find?, hk, hmGet_hmInsert, hk'.symm]
      · have hk' : ¬ k = s.distro := by simpa using fun hh : k = s.distro => hk (by simp [hh])
        simp [List.find?, hk, hmGet_hmInsert, hk']


lemma find?_eq_some_of_unique (p : String → Bool) (d : String) :
    ∀ (l : List String), d ∈ l → p d = true → (∀ x ∈ l, p x = true → x = d) →
      l.find? p = some d
  | [], hd, _, _ => absurd hd (List.not_mem_nil d)
  | x :: xs, hd, hpd, huniq => by
    by_cases hx : p x = true
    · have hxd : x = d := huniq x (List.mem_cons_self x xs) hx
      rw [List.find?_cons, hx, hxd]
    · have hx' : p x = false := by simpa using hx
      rw [List.find?_cons, hx']
      rcases List.mem_cons.mp hd with h1 | h1
      · exact absurd (h1 ▸ hpd) hx
      · exact find?_eq_some_of_unique p d xs h1 hpd
          (fun y hy hpy => huniq y (List.mem_cons.mpr (Or.inr hy)) hpy)

/-- Normal form of `processIssue` once the distro label has been found and
looked up in the map. -/
lemma processIssue_eq_of_find (distros : List String) (m : DistroToSyncStatus)
    (labels : List String) (d : String) (b : Bool)
    (hfind : distros.find? (fun x => labels.contains x) = some d)
    (hget : hmGet m d = some b) :
    processIssue distros m labels =
      if b = labels.any (fun l => l == SYNC_HOLD_LABEL) then .ok none
      else if b then .ok (some (labels ++ [SYNC_HOLD_LABEL]))
      else
        match labels.findIdx? (fun l => l == SYNC_HOLD_LABEL) with
        | none => .error "SYNC_HOLD_LABEL not found in labels"
        | some i => .ok (some (labels.eraseIdx i)) := by
  unfold processIssue
  rw [hfind]
  cases b <;> cases hlab : labels.any (fun l => l == SYNC_HOLD_LABEL) <;>
    simp [hget, hlab]

lemma processIssue_ok_of_find (distros : List String) (m : DistroToSyncStatus)
    (labels : List String) (d : String) (b : Bool)
    (hfind : distros.find? (fun x => labels.contains x) = some d)
    (hget : hmGet m d = some b) :
    ∃ r, processIssue distros m labels = .ok r := by
  rw [processIssue_eq_of_find distros m labels d b hfind hget]
  by_cases heq : b = labels.any (fun l => l == SYNC_HOLD_LABEL)
  · exact ⟨none, by rw [if_pos heq]⟩
  · rw [if_neg heq]
    cases hb : b with
    | true => exact ⟨some (labels ++ [SYNC_HOLD_LABEL]), by rw [if_pos rfl]⟩
    | false =>
      have hlab : labels.any (fun l => l == SYNC_HOLD_LABEL) = true := by
        cases hlab : labels.any (fun l => l == SYNC_HOLD_LABEL) with
        | true => rfl
        | false => exact absurd (hb ▸ hlab ▸ rfl) heq
      obtain ⟨i, hi⟩ := findIdx?_isSome_of_any _ labels hlab
      refine ⟨some (labels.eraseIdx i), ?_⟩
      rw [if_neg (by simp), hi]


lemma find?_congr_pred : ∀ (l : List String) (p q : String → Bool),
    (∀ x ∈ l, p x = q x) → l.find? p = l.find? q
  | [], _, _, _ => rfl
  | x :: xs, p, q, h => by
    rw [List.find?_cons, List.find?_cons, h x (List.mem_cons_self x xs)]
    cases hqx : q x with
    | true => rfl
    | false =>
      exact find?_congr_pred xs p q (fun y hy => h y (List.mem_cons.mpr (Or.inr hy)))

lemma any_hold_iff (l : List String) :
    l.any (fun x => x == SYNC_HOLD_LABEL) = true ↔ SYNC_HOLD_LABEL ∈ l := by
  simp

lemma contains_eq_of_mem_iff (l l' : List String) (x : String) (h : x ∈ l ↔ x ∈ l') :
    l.contains x = l'.contains x := by
  cases hc : l'.contains x with
  | true =>
    have hx : x ∈ l' := by simpa using hc
    simpa using h.mpr hx
  | false =>
    have hx : x ∉ l' := by simpa using hc
    have hnl : x ∉ l := fun hl => hx (h.mp hl)
    exact Bool.eq_false_iff.mpr (fun hc' => hnl (by simpa using hc'))

lemma mem_eraseIdx_findIdx? (a x : String) (l : List String) (i : Nat)
    (hi : l.findIdx? (fun y => y == a) = some i) (hx : ¬ x = a) :
    x ∈ l.eraseIdx i ↔ x ∈ l := by
  have hf := filter_eraseIdx_findIdx? a l i hi
  constructor
  · intro h
    have hmem : x ∈ (l.eraseIdx i).filter (fun y => !(y == a)) :=
      List.mem_filter.mpr ⟨h, by simp [hx]⟩
    rw [hf] at hmem
    exact (List.mem_filter.mp hmem).1
  · intro h
    have hmem : x ∈ l.filter (fun y => !(y == a)) :=
      List.mem_filter.mpr ⟨h, by simp [hx]⟩
    rw [← hf] at hmem
    exact (List.mem_filter.mp hmem).1

/-- Processing the label list produced by a successful `processIssue` is a
no-op, provided the hold label is not itself a distro key and occurred at
most once. -/
lemma processIssue_stable (distros : List String) (m : DistroToSyncStatus)
    (labels : List String) (r : Option (List String))
    (hhold : SYNC_HOLD_LABEL ∉ distros)
    (hcnt : labels.count SYNC_HOLD_LABEL ≤ 1)
    (h : processIssue distros m labels = .ok r) :
    processIssue distros m (r.getD labels) = .ok none := by
  cases hfind : distros.find? (fun d => labels.contains d) with
  | none =>
    rw [processIssue, hfind] at h
    exact absurd h (by simp)
  | some d =>
    cases hget : hmGet m d with
    | none =>
      rw [processIssue, hfind] at h
      simp [hget] at h
    | some b =>
      have hd : d ∈ distros := List.mem_of_find?_eq_some hfind
      have hdhold : ¬ d = SYNC_HOLD_LABEL := fun hh => hhold (hh ▸ hd)
      rw [processIssue_eq_of_find distros m labels d b hfind hget] at h
      by_cases heq : b = labels.any (fun l => l == SYNC_HOLD_LABEL)
      · rw [if_pos heq] at h
        have : r = none := by
          cases h
          rfl
        subst this
        rw [Option.getD_none,
          processIssue_eq_of_find distros m labels d b hfind hget, if_pos heq]
      · rw [if_neg heq] at h
        cases hb : b with
        | true =>
          rw [hb, if_pos rfl] at h
          have hr : r = some (labels ++ [SYNC_HOLD_LABEL]) := by
            cases h
            rfl
          subst hr
          have hcont : ∀ x ∈ distros,
              (labels ++ [SYNC_HOLD_LABEL]).contains x = labels.contains x := by
            intro x hx
            have hxh : ¬ x = SYNC_HOLD_LABEL := fun hh => hhold (hh ▸ hx)
            exact contains_eq_of_mem_iff _ _ _ (by simp [hxh])
          have hfind' : distros.find? (fun x => (labels ++ [SYNC_HOLD_LABEL]).contains x)
              = some d := by
            rw [find?_congr_pred distros _ _ hcont]
            exact hfind
          have hlab' : (labels ++ [SYNC_HOLD_LABEL]).any (fun l => l == SYNC_HOLD_LABEL)
              = true := (any_hold_iff _).mpr (by simp)
          rw [Option.getD_some,
            processIssue_eq_of_find distros m _ d b hfind' hget, hb, if_pos (by rw [hlab'])]
        | false =>
          rw [hb] at h
          simp only [Bool.false_eq_true, if_neg] at h
          have hlab : labels.any (fun l => l == SYNC_HOLD_LABEL) = true := by
            cases hlab : labels.any (fun l => l == SYNC_HOLD_LABEL) with
            | true => rfl
            | false => exact absurd (hb ▸ hlab ▸ rfl) heq
          obtain ⟨i, hi⟩ := findIdx?_isSome_of_any _ labels hlab
          rw [hi] at h
          have hr : r = some (labels.eraseIdx i) := by
            cases h
            rfl
          subst hr
          have hcont : ∀ x ∈ distros,
              (labels.eraseIdx i).contains x = labels.contains x := by
            intro x hx
            have hxh : ¬ x = SYNC_HOLD_LABEL := fun hh => hhold (hh ▸ hx)
            exact contains_eq_of_mem_iff _ _ _ (mem_eraseIdx_findIdx? _ _ _ _ hi hxh)
          have hfind' : distros.find? (fun x => (labels.eraseIdx i).contains x) = some d := by
            rw [find?_congr_pred distros _ _ hcont]
            exact hfind
          have hnot : SYNC_HOLD_LABEL ∉ labels.eraseIdx i :=
            not_mem_eraseIdx_of_count_le_one _ labels i hi hcnt
          have hlab' : (labels.eraseIdx i).any (fun l => l == SYNC_HOLD_LABEL) = false := by
            cases hl : (labels.eraseIdx i).any (fun l => l == SYNC_HOLD_LABEL) with
            | false => rfl
            | true => exact absurd ((any_hold_iff _).mp hl) hnot
          rw [Option.getD_some,
            processIssue_eq_of_find distros m _ d b hfind' hget, hb, if_pos (by rw [hlab'])]


/-- Claim C2 (confirmed): for an issue whose distro label was found and looked
up, the reconciler acts exactly by the four-way decision table over
`(is_in_sync, is_labeled_as_hold)`: no action when the booleans agree, append
`"in_sync_hold"` when `is_in_sync` holds and the label is absent, and remove
the label when `is_in_sync` fails and the label is present. -/
theorem decision_table (distros : List String) (m : DistroToSyncStatus)
    (labels : List String) (d : String) (b : Bool)
    (hfind : distros.find? (fun x => labels.contains x) = some d)
    (hget : hmGet m d = some b) :
    (b = labels.any (fun l => l == SYNC_HOLD_LABEL) →
        processIssue distros m labels = .ok none)
    ∧ (b = true → labels.any (fun l => l == SYNC_HOLD_LABEL) = false →
        processIssue distros m labels = .ok (some (labels ++ [SYNC_HOLD_LABEL])))
    ∧ (b = false → labels.any (fun l => l == SYNC_HOLD_LABEL) = true →
        ∃ i, labels.findIdx? (fun l => l == SYNC_HOLD_LABEL) = some i ∧
          processIssue distros m labels = .ok (some (labels.eraseIdx i))) := by
  rw [processIssue_eq_of_find distros m labels d b hfind hget]
  refine ⟨?_, ?_, ?_⟩
  · intro heq
    rw [if_pos heq]
  · intro hb hlab
    subst hb
    rw [if_neg (by rw [hlab]; simp), if_pos rfl]
  · intro hb hlab
    subst hb
    obtain ⟨i, hi⟩ := findIdx?_isSome_of_any _ labels hlab
    refine ⟨i, hi, ?_⟩
    rw [if_neg (by rw [hlab]; simp), if_neg (by simp), hi]

/-- Witness for C2 at a concrete issue: `M = {"focal" ↦ true}`, labels
`["focal"]`, so the hold label is appended. -/
theorem decision_table_witness :
    processIssue ["focal"] [("focal", true)] ["focal"]
      = .ok (some (["focal"] ++ [SYNC_HOLD_LABEL])) :=
  (decision_table ["focal"] [("focal", true)] ["focal"] "focal" true rfl rfl).2.1 rfl rfl

/-- Claim C4 (confirmed): an issue whose hold-label state already equals the
desired sync state is left unchanged: `processIssue` takes the `continue`
branch, and a run over just that issue returns the same label list and zero
label-update calls. -/
theorem noop_preserves_labels (distros : List String) (m : DistroToSyncStatus)
    (labels : List String) (d : String) (b : Bool)
    (hfind : distros.find? (fun x => labels.contains x) = some d)
    (hget : hmGet m d = some b)
    (heq : b = labels.any (fun l => l == SYNC_HOLD_LABEL)) :
    processIssue distros m labels = .ok none
    ∧ runIssues distros m [labels] = .ok ([labels], 0) := by
  have h1 : processIssue distros m labels = .ok none := by
    rw [processIssue_eq_of_find distros m labels d b hfind hget, if_pos heq]
  exact ⟨h1, by simp [runIssues, h1]⟩

/-- Witness for C4: `M = {"jammy" ↦ false}`, labels `["jammy"]` — already
correct, zero update calls. -/
theorem noop_preserves_labels_witness :
    runIssues ["jammy"] [("jammy", false)] [["jammy"]] = .ok ([["jammy"]], 0) :=
  (noop_preserves_labels ["jammy"] [("jammy", false)] ["jammy"] "jammy" false
    rfl rfl rfl).2

/-- Claim C5 (confirmed): the `StatusMap` built by `sync_statuses_to_hashmap`
is last-write-wins: looking up a distro returns the `in_sync_hold` value of
the last record bearing that name (the first one of the reversed sequence);
in particular two records for `"a"` with values `true` then `false` yield
`some false`. -/
theorem status_map_last_write_wins :
    (∀ (ss : List SyncStatus) (k : String),
        hmGet (sync_statuses_to_hashmap ss) k =
          (ss.reverse.find? (fun s => s.distro == k)).map SyncStatus.in_sync_hold)
    ∧ hmGet (sync_statuses_to_hashmap [⟨"a", true⟩, ⟨"a", false⟩]) "a" = some false := by
  constructor
  · intro ss k
    rw [sync_statuses_to_hashmap, hmGet_foldl_insert]
    cases hf : ss.reverse.find? (fun s => s.distro == k) with
    | some s => rfl
    | none => rfl
  · rfl

/-- Claim C8 (confirmed): the defensive `unreachable!` branch of the per-issue
decision logic can never fire: no input makes `processIssue` return its
error value. -/
theorem unreachable_branch_never_fires (distros : List String)
    (m : DistroToSyncStatus) (labels : List String) :
    processIssue distros m labels ≠ .error "This should never happen" := by
  intro h
  cases hfind : distros.find? (fun d => labels.contains d) with
  | none =>
    rw [processIssue, hfind] at h
    injection h with h
    exact absurd h (by decide)
  | some d =>
    cases hget : hmGet m d with
    | none =>
      rw [processIssue, hfind] at h
      simp only [hget] at h
      injection h with h
      exact absurd h (by decide)
    | some b =>
      rw [processIssue_eq_of_find distros m labels d b hfind hget] at h
      by_cases heq : b = labels.any (fun l => l == SYNC_HOLD_LABEL)
      · rw [if_pos heq] at h
        exact absurd h (by simp)
      · rw [if_neg heq] at h
        cases hb : b with
        | true =>
          rw [hb, if_pos rfl] at h
          exact absurd h (by simp)
        | false =>
          rw [hb] at h
          simp only [Bool.false_eq_true, if_neg] at h
          have hlab : labels.any (fun l => l == SYNC_HOLD_LABEL) = true := by
            cases hl : labels.any (fun l => l == SYNC_HOLD_LABEL) with
            | true => rfl
            | false => exact absurd (hb ▸ hl ▸ rfl) heq
          obtain ⟨i, hi⟩ := findIdx?_isSome_of_any _ labels hlab
          rw [hi] at h
          exact absurd h (by simp)

/-- Witness for C8 at a concrete issue. -/
theorem unreachable_branch_never_fires_witness :
    processIssue ["a"] [("a", true)] ["a"] ≠ .error "This should never happen" :=
  unreachable_branch_never_fires ["a"] [("a", true)] ["a"]

/-- Claim C9 (confirmed): the status-document URL built by `main` is exactly
the slash-joined string
`https://raw.githubusercontent.com/<org>/<repo>/<branch>/<path>`. -/
theorem url_construction_matches_spec (org repo branch path : String) :
    url_to_file org repo branch path = spec_url org repo branch path := by
  simp [url_to_file, spec_url, String.intercalate, String.intercalate.go,
    String.append_assoc]


/-- Counterexample to C1 as stated: with `M = {"a" ↦ false}` (so the label
list `["a", "in_sync_hold", "in_sync_hold"]` contains exactly one key of `M`),
the reconciler removes only the first occurrence of the hold label, so the
result still contains `"in_sync_hold"` although `M` maps `"a"` to `false`. -/
theorem hold_label_iff_counterexample :
    hmKeys [("a", false)] = ["a"]
    ∧ List.contains ["a", SYNC_HOLD_LABEL, SYNC_HOLD_LABEL] "a" = true
    ∧ hmGet [("a", false)] "a" = some false
    ∧ processIssue ["a"] [("a", false)] ["a", SYNC_HOLD_LABEL, SYNC_HOLD_LABEL]
        = .ok (some ["a", SYNC_HOLD_LABEL])
    ∧ SYNC_HOLD_LABEL ∈ ["a", SYNC_HOLD_LABEL] :=
  ⟨rfl, rfl, rfl, rfl, by decide⟩

/-- Claim C1 (amended): if the label list contains exactly one key of the
`StatusMap` and at most one occurrence of `"in_sync_hold"`, then after the
reconciler processes the issue the resulting label list contains
`"in_sync_hold"` iff the map sends that distro to `true`. -/
theorem hold_label_iff_in_sync (distros : List String) (m : DistroToSyncStatus)
    (labels : List String) (d : String)
    (hperm : ∀ x, x ∈ distros ↔ x ∈ hmKeys m)
    (hd : d ∈ hmKeys m) (hdl : labels.contains d = true)
    (huniq : ∀ x ∈ hmKeys m, labels.contains x = true → x = d)
    (hcnt : labels.count SYNC_HOLD_LABEL ≤ 1) :
    ∃ b r, hmGet m d = some b ∧ processIssue distros m labels = .ok r ∧
      (SYNC_HOLD_LABEL ∈ r.getD labels ↔ b = true) := by
  obtain ⟨b, hb⟩ := exists_hmGet_of_mem_hmKeys m d hd
  have hfind : distros.find? (fun x => labels.contains x) = some d :=
    find?_eq_some_of_unique _ d distros ((hperm d).mpr hd) hdl
      (fun x hx hpx => huniq x ((hperm x).mp hx) hpx)
  by_cases heq : b = labels.any (fun l => l == SYNC_HOLD_LABEL)
  · refine ⟨b, none, hb, ?_, ?_⟩
    · rw [processIssue_eq_of_find distros m labels d b hfind hb, if_pos heq]
    · rw [Option.getD_none, heq]
      exact (any_hold_iff labels).symm
  · cases hbv : b with
    | true =>
      subst hbv
      refine ⟨true, some (labels ++ [SYNC_HOLD_LABEL]), hb, ?_, ?_⟩
      · rw [processIssue_eq_of_find distros m labels d true hfind hb,
          if_neg heq, if_pos rfl]
      · simp [Option.getD_some]
    | false =>
      subst hbv
      have hlab : labels.any (fun l => l == SYNC_HOLD_LABEL) = true := by
        cases hl : labels.any (fun l => l == SYNC_HOLD_LABEL) with
        | true => rfl
        | false => exact absurd hl.symm heq
      obtain ⟨i, hi⟩ := findIdx?_isSome_of_any _ labels hlab
      refine ⟨false, some (labels.eraseIdx i), hb, ?_, ?_⟩
      · rw [processIssue_eq_of_find distros m labels d false hfind hb,
          if_neg heq, if_neg (by simp), hi]
      · have hnot : SYNC_HOLD_LABEL ∉ labels.eraseIdx i :=
          not_mem_eraseIdx_of_count_le_one _ labels i hi hcnt
        simp [Option.getD_some, hnot]

/-- Witness for C1 (amended) at `M = {"focal" ↦ true}`, labels `["focal"]`. -/
theorem hold_label_iff_in_sync_witness :
    ∃ b r, hmGet [("focal", true)] "focal" = some b
      ∧ processIssue ["focal"] [("focal", true)] ["focal"] = .ok r
      ∧ (SYNC_HOLD_LABEL ∈ r.getD ["focal"] ↔ b = true) :=
  hold_label_iff_in_sync ["focal"] [("focal", true)] ["focal"] "focal"
    (fun _ => Iff.rfl) (by decide) rfl (by decide) (by decide)

/-- Counterexample to C3 as stated: with `M` mapping `"a" ↦ true` and
`"in_sync_hold" ↦ false` and the key enumeration putting `"in_sync_hold"`
first (a legitimate `HashMap` iteration order: it is a permutation of the
keys), the first run adds the hold label to the issue labelled `["a"]`, and
the second run — with no external change — issues one further label-update
call instead of zero. -/
theorem second_run_counterexample :
    (["in_sync_hold", "a"] : List String).Perm
        (hmKeys [("a", true), ("in_sync_hold", false)])
    ∧ runIssues ["in_sync_hold", "a"] [("a", true), ("in_sync_hold", false)] [["a"]]
        = .ok ([["a", "in_sync_hold"]], 1)
    ∧ runIssues ["in_sync_hold", "a"] [("a", true), ("in_sync_hold", false)]
        [["a", "in_sync_hold"]] = .ok ([["a"]], 1) :=
  ⟨by decide, rfl, rfl⟩

/-- Claim C3 (amended): provided `"in_sync_hold"` is not itself a distro key
and no issue carries a duplicated hold label, a second run of the reconciler
on the label lists produced by a first successful run, with the same map and
the same key enumeration, issues zero label-update calls (and leaves every
label list unchanged). -/
theorem reconciler_idempotent (distros : List String) (m : DistroToSyncStatus)
    (hhold : SYNC_HOLD_LABEL ∉ distros) :
    ∀ (issues ls : List (List String)) (n : Nat),
      (∀ L ∈ issues, L.count SYNC_HOLD_LABEL ≤ 1) →
      runIssues distros m issues = .ok (ls, n) →
      runIssues distros m ls = .ok (ls, 0)
  | [], ls, n, _, h => by
    simp only [runIssues, Except.ok.injEq, Prod.mk.injEq] at h
    rw [← h.1]
    rfl
  | L :: rest, ls, n, hcnt, h => by
    rw [runIssues] at h
    cases hpi : processIssue distros m L with
    | error e => rw [hpi] at h; exact absurd h (by simp)
    | ok r =>
      rw [hpi] at h
      have hstable := processIssue_stable distros m L r hhold
        (hcnt L (List.mem_cons_self L rest)) hpi
      have hcnt' : ∀ L' ∈ rest, L'.count SYNC_HOLD_LABEL ≤ 1 :=
        fun L' hL' => hcnt L' (List.mem_cons.mpr (Or.inr hL'))
      cases r with
      | none =>
        cases hrec : runIssues distros m rest with
        | error e => rw [hrec] at h; exact absurd h (by simp)
        | ok p =>
          rw [hrec] at h
          obtain ⟨ls', n'⟩ := p
          simp only [Except.ok.injEq, Prod.mk.injEq] at h
          obtain ⟨hls, -⟩ := h
          subst hls
          have ih := reconciler_idempotent distros m hhold rest ls' n' hcnt' hrec
          rw [Option.getD_none] at hstable
          simp [runIssues, hstable, ih]
      | some L' =>
        cases hrec : runIssues distros m rest with
        | error e => rw [hrec] at h; exact absurd h (by simp)
        | ok p =>
          rw [hrec] at h
          obtain ⟨ls', n'⟩ := p
          simp only [Except.ok.injEq, Prod.mk.injEq] at h
          obtain ⟨hls, -⟩ := h
          subst hls
          have ih := reconciler_idempotent distros m hhold rest ls' n' hcnt' hrec
          rw [Option.getD_some] at hstable
          simp [runIssues, hstable, ih]

/-- Witness for C3 (amended): after the first run adds the hold label to the
issue labelled `["focal"]`, a second run issues zero update calls. -/
theorem reconciler_idempotent_witness :
    runIssues ["focal"] [("focal", true)] [["focal", "in_sync_hold"]]
      = .ok ([["focal", "in_sync_hold"]], 0) :=
  reconciler_idempotent ["focal"] [("focal", true)] (by decide)
    [["focal"]] [["focal", "in_sync_hold"]] 1 (by decide) rfl


lemma runIssues_error_of_mem (distros : List String) (m : DistroToSyncStatus) :
    ∀ (issues : List (List String)) (labels : List String), labels ∈ issues →
      (∀ e, processIssue distros m labels = .error e →
        ∃ e', runIssues distros m issues = .error e')
  | [], labels, hmem, _, _ => absurd hmem (List.not_mem_nil labels)
  | L :: rest, labels, hmem, e, he => by
    cases hpi : processIssue distros m L with
    | error e0 => exact ⟨e0, by simp [runIssues, hpi]⟩
    | ok r =>
      rcases List.mem_cons.mp hmem with h1 | h1
      · rw [h1] at he
        rw [he] at hpi
        exact absurd hpi (by simp)
      · obtain ⟨e', he'⟩ := runIssues_error_of_mem distros m rest labels h1 e he
        cases r with
        | none => exact ⟨e', by simp [runIssues, hpi, he']⟩
        | some L' => exact ⟨e', by simp [runIssues, hpi, he']⟩

/-- Claim C6 (confirmed): an issue carrying no key of the `StatusMap` makes the
per-issue step fail with the distinctive "distro not found in labels" panic,
and any run whose issue list contains such an issue aborts with an error
instead of skipping it. -/
theorem missing_distro_aborts_run (distros : List String) (m : DistroToSyncStatus)
    (issues : List (List String)) (labels : List String)
    (hmem : labels ∈ issues)
    (hnone : ∀ d ∈ distros, labels.contains d = false) :
    processIssue distros m labels = .error "distro not found in labels"
    ∧ ∃ e, runIssues distros m issues = .error e := by
  have hfind : distros.find? (fun x => labels.contains x) = none :=
    List.find?_eq_none.mpr (fun x hx => by rw [hnone x hx]; simp)
  have hpi : processIssue distros m labels = .error "distro not found in labels" := by
    rw [processIssue, hfind]
  exact ⟨hpi, runIssues_error_of_mem distros m issues labels hmem _ hpi⟩

/-- Witness for C6: one issue labelled `["x"]` while the only distro key is
`"a"` — the run aborts. -/
theorem missing_distro_aborts_run_witness :
    processIssue ["a"] [("a", true)] ["x"] = .error "distro not found in labels"
    ∧ ∃ e, runIssues ["a"] [("a", true)] [["x"]] = .error e :=
  missing_distro_aborts_run ["a"] [("a", true)] [["x"]] ["x"] (by decide) (by decide)

/-- Counterexample to C7 as stated: an issue whose labels `["a", "b"]` contain
the two distinct map keys `"a"` and `"b"` is not rejected: the reconciler
silently reconciles it (here against `"a"`, the first key in enumeration
order) and returns a successful update instead of an error. -/
theorem ambiguous_distro_counterexample :
    ("a" : String) ≠ "b"
    ∧ hmKeys [("a", true), ("b", false)] = ["a", "b"]
    ∧ List.contains ["a", "b"] "a" = true
    ∧ List.contains ["a", "b"] "b" = true
    ∧ processIssue ["a", "b"] [("a", true), ("b", false)] ["a", "b"]
        = .ok (some ["a", "b", "in_sync_hold"]) :=
  ⟨by decide, rfl, rfl, rfl, rfl⟩

/-- Claim C7 (amended): an issue carrying two or more distinct keys of the
`StatusMap` does not produce an error: the reconciler silently picks the first
matching key in the (unspecified) key-enumeration order and reconciles the
issue against it. -/
theorem ambiguous_distro_no_error (distros : List String) (m : DistroToSyncStatus)
    (labels : List String) (d₁ d₂ : String)
    (hne : d₁ ≠ d₂) (h1 : d₁ ∈ distros) (h2 : d₂ ∈ distros)
    (hl1 : labels.contains d₁ = true) (hl2 : labels.contains d₂ = true)
    (hkeys : ∀ x ∈ distros, x ∈ hmKeys m) :
    ∃ d r, distros.find? (fun x => labels.contains x) = some d ∧ d ∈ distros ∧
      processIssue distros m labels = .ok r := by
  have hsome : (distros.find? (fun x => labels.contains x)).isSome :=
    List.find?_isSome.mpr ⟨d₁, h1, hl1⟩
  obtain ⟨d, hd⟩ := Option.isSome_iff_exists.mp hsome
  have hdm : d ∈ distros := List.mem_of_find?_eq_some hd
  obtain ⟨b, hb⟩ := exists_hmGet_of_mem_hmKeys m d (hkeys d hdm)
  obtain ⟨r, hr⟩ := processIssue_ok_of_find distros m labels d b hd hb
  exact ⟨d, r, hd, hdm, hr⟩

/-- Witness for C7 (amended) at the two-key issue `["a", "b"]`. -/
theorem ambiguous_distro_no_error_witness :
    ∃ d r, (["a", "b"] : List String).find?
        (fun x => (["a", "b"] : List String).contains x) = some d
      ∧ d ∈ (["a", "b"] : List String)
      ∧ processIssue ["a", "b"] [("a", true), ("b", false)] ["a", "b"] = .ok r :=
  ambiguous_distro_no_error ["a", "b"] [("a", true), ("b", false)] ["a", "b"]
    "a" "b" (by decide) (by decide) (by decide) rfl rfl (by decide)

/-- Claim C10 (confirmed): the reconciler preserves every label other than
`"in_sync_hold"` with its multiplicity and relative order (the label lists
agree after filtering out the hold label), and any update either appends
`"in_sync_hold"` at the end or deletes exactly the first occurrence of
`"in_sync_hold"`. -/
theorem frame_other_labels (distros : List String) (m : DistroToSyncStatus)
    (labels : List String) (r : Option (List String))
    (h : processIssue distros m labels = .ok r) :
    (r.getD labels).filter (fun l => !(l == SYNC_HOLD_LABEL))
        = labels.filter (fun l => !(l == SYNC_HOLD_LABEL))
    ∧ ∀ L', r = some L' →
        L' = labels ++ [SYNC_HOLD_LABEL]
        ∨ ∃ i, labels.findIdx? (fun l => l == SYNC_HOLD_LABEL) = some i
            ∧ L' = labels.eraseIdx i := by
  cases hfind : distros.find? (fun d => labels.contains d) with
  | none =>
    rw [processIssue, hfind] at h
    exact absurd h (by simp)
  | some d =>
    cases hget : hmGet m d with
    | none =>
      rw [processIssue, hfind] at h
      simp [hget] at h
    | some b =>
      rw [processIssue_eq_of_find distros m labels d b hfind hget] at h
      by_cases heq : b = labels.any (fun l => l == SYNC_HOLD_LABEL)
      · rw [if_pos heq] at h
        have hr : r = none := by cases h; rfl
        subst hr
        exact ⟨by rw [Option.getD_none], fun L' hL' => by cases hL'⟩
      · rw [if_neg heq] at h
        cases hb : b with
        | true =>
          rw [hb, if_pos rfl] at h
          have hr : r = some (labels ++ [SYNC_HOLD_LABEL]) := by cases h; rfl
          subst hr
          constructor
          · rw [Option.getD_some, List.filter_append]
            simp
          · intro L' hL'
            cases hL'
            exact Or.inl rfl
        | false =>
          rw [hb] at h
          simp only [Bool.false_eq_true, if_neg] at h
          have hlab : labels.any (fun l => l == SYNC_HOLD_LABEL) = true := by
            cases hl : labels.any (fun l => l == SYNC_HOLD_LABEL) with
            | true => rfl
            | false => exact absurd (hb ▸ hl ▸ rfl) heq
          obtain ⟨i, hi⟩ := findIdx?_isSome_of_any _ labels hlab
          rw [hi] at h
          have hr : r = some (labels.eraseIdx i) := by cases h; rfl
          subst hr
          constructor
          · rw [Option.getD_some]
            exact filter_eraseIdx_findIdx? _ labels i hi
          · intro L' hL'
            cases hL'
            exact Or.inr ⟨i, hi, rfl⟩

/-- Witness for C10: the add case at `M = {"focal" ↦ true}`, labels
`["focal"]` — the non-hold labels are untouched. -/
theorem frame_other_labels_witness :
    ((some ["focal", "in_sync_hold"] : Option (List String)).getD
        ["focal"]).filter (fun l => !(l == SYNC_HOLD_LABEL))
      = (["focal"] : List String).filter (fun l => !(l == SYNC_HOLD_LABEL)) :=
  (frame_other_labels ["focal"] [("focal", true)] ["focal"]
    (some ["focal", "in_sync_hold"]) rfl).1

end RosdistroSyncBot
